import Mathlib

set_option maxRecDepth 8000

/-!
Formal model of the VGL Blender exporter scripts
(`io_export_vgl.py` and `io_export_vgl_2_90.py`).

Real numbers are modelled as rationals.  The Python 3 built-in `round`
(nearest integer, ties to even) is modelled by `pyRound`.  Python
exceptions (`ZeroDivisionError`, `ValueError`, `RuntimeError`) are
modelled with `Except PyError`.
-/

/-- Python exception kinds raised by the exporter code paths modelled here. -/
inductive PyError where
  | zeroDivision
  | valueError
  | runtimeError
deriving DecidableEq, Repr

/-- Python 3 built-in `round` on an exactly represented value: the nearest
integer, with ties resolved to the even integer (banker's rounding).
This is the documented behaviour of CPython's `round` on floats. -/
def pyRound (q : ℚ) : ℤ :=
  if q - ⌊q⌋ < 1/2 then ⌊q⌋
  else if 1/2 < q - ⌊q⌋ then ⌊q⌋ + 1
  else if 2 ∣ ⌊q⌋ then ⌊q⌋ else ⌊q⌋ + 1

/-- Source: `toExport8F8` (both files) — `int(round(op * 256.0))`. -/
def toExport8F8 (op : ℚ) : ℤ := pyRound (op * 256)

/-- Source: `toExport4F12` (both files) — `int(round(op * 4096.0))`. -/
def toExport4F12 (op : ℚ) : ℤ := pyRound (op * 4096)

/-- Source: `toExportS16` (both files) —
`max(min(int(round(op)), 32767), -32768)`. -/
def toExportS16 (op : ℚ) : ℤ := max (min (pyRound op) 32767) (-32768)

/-- Source: `toExportU8` (both files) —
`max(min(int(round(op)), 255), 0)`. -/
def toExportU8 (op : ℚ) : ℤ := max (min (pyRound op) 255) 0

/-- Rounding with ties away from zero, written from the spec sentence
"ties round away from zero (never banker's rounding)". -/
def roundAwayFromZero (q : ℚ) : ℤ :=
  if 0 ≤ q then ⌊q + 1/2⌋ else ⌈q - 1/2⌉

/-- Round-half-to-even stated independently of `pyRound`: on a tie the
result is twice the ordinary rounding of the half, otherwise the ordinary
(ties-up) rounding. -/
def roundHalfEven (q : ℚ) : ℤ :=
  if q - ⌊q⌋ = 1/2 then 2 * round (q / 2) else round q

theorem floor_le_pyRound (q : ℚ) : ⌊q⌋ ≤ pyRound q := by
  unfold pyRound
  split_ifs <;> omega

theorem pyRound_le_floor_add_one (q : ℚ) : pyRound q ≤ ⌊q⌋ + 1 := by
  unfold pyRound
  split_ifs <;> omega

theorem pyRound_le (q : ℚ) : (pyRound q : ℚ) ≤ q + 1/2 := by
  have h1 : (⌊q⌋ : ℚ) ≤ q := Int.floor_le q
  have h2 : q < ⌊q⌋ + 1 := Int.lt_floor_add_one q
  unfold pyRound
  split_ifs <;> push_cast <;> linarith

theorem le_pyRound (q : ℚ) : q - 1/2 ≤ (pyRound q : ℚ) := by
  have h1 : (⌊q⌋ : ℚ) ≤ q := Int.floor_le q
  have h2 : q < ⌊q⌋ + 1 := Int.lt_floor_add_one q
  unfold pyRound
  split_ifs <;> push_cast <;> linarith

theorem pyRound_intCast (n : ℤ) : pyRound (n : ℚ) = n := by
  unfold pyRound
  rw [Int.floor_intCast]
  norm_num

theorem pyRound_mono {q r : ℚ} (h : q ≤ r) : pyRound q ≤ pyRound r := by
  rcases lt_or_le ⌊q⌋ ⌊r⌋ with hf | hf
  · calc pyRound q ≤ ⌊q⌋ + 1 := pyRound_le_floor_add_one q
      _ ≤ ⌊r⌋ := hf
      _ ≤ pyRound r := floor_le_pyRound r
  · have heq : ⌊q⌋ = ⌊r⌋ := le_antisymm (Int.floor_le_floor h) hf
    have hqr : q - ⌊r⌋ ≤ r - ⌊r⌋ := by
      have : (⌊r⌋ : ℚ) = ⌊r⌋ := rfl
      linarith
    unfold pyRound
    rw [heq]
    split_ifs <;> first | rfl | omega | linarith

theorem pyRound_eq_roundHalfEven (q : ℚ) : pyRound q = roundHalfEven q := by
  have h1 : (⌊q⌋ : ℚ) ≤ q := Int.floor_le q
  have h2 : q < ⌊q⌋ + 1 := Int.lt_floor_add_one q
  unfold pyRound roundHalfEven
  rcases eq_or_ne (q - ⌊q⌋) (1/2) with htie | htie
  · rw [if_neg (by rw [htie]; norm_num), if_neg (by rw [htie]; norm_num), if_pos htie]
    have hq : q = (⌊q⌋ : ℚ) + 1/2 := by linarith
    rcases Int.even_or_odd ⌊q⌋ with ⟨m, hm⟩ | ⟨m, hm⟩
    · have hdvd : 2 ∣ ⌊q⌋ := ⟨m, by omega⟩
      rw [if_pos hdvd]
      have : q / 2 = (m : ℚ) + 1/4 := by rw [hq, hm]; push_cast; ring
      rw [this, round_eq]
      have : (m : ℚ) + 1/4 + 1/2 = (m : ℚ) + 3/4 := by ring
      rw [this, Int.floor_int_add]
      have : ⌊(3/4 : ℚ)⌋ = 0 := by norm_num
      omega
    · have hdvd : ¬ (2 ∣ ⌊q⌋) := by omega
      rw [if_neg hdvd]
      have : q / 2 = (m : ℚ) + 3/4 := by rw [hq, hm]; push_cast; ring
      rw [this, round_eq]
      have : (m : ℚ) + 3/4 + 1/2 = (m : ℚ) + 5/4 := by ring
      rw [this, Int.floor_int_add]
      have : ⌊(5/4 : ℚ)⌋ = 1 := by norm_num
      omega
  · rw [if_neg htie, round_eq]
    rcases lt_or_le (q - ⌊q⌋) (1/2) with hlt | hge
    · rw [if_pos hlt]
      have : ⌊q + 1/2⌋ = ⌊q⌋ := by
        apply Int.floor_eq_iff.mpr
        constructor <;> [linarith; push_cast] <;> linarith
      omega
    · have hgt : 1/2 < q - ⌊q⌋ := lt_of_le_of_ne hge (Ne.symm htie)
      rw [if_neg (by linarith), if_pos hgt]
      have : ⌊q + 1/2⌋ = ⌊q⌋ + 1 := by
        apply Int.floor_eq_iff.mpr
        constructor <;> push_cast <;> linarith
      omega

theorem toExportU8_eq_pyRound {x : ℚ} (h0 : 0 ≤ x) (h1 : x ≤ 255) :
    toExportU8 x = pyRound x := by
  have hl := le_pyRound x
  have hu := pyRound_le x
  have hlo : (0 : ℤ) ≤ pyRound x := by
    have h : ((-1 : ℤ) : ℚ) < (pyRound x : ℚ) := by push_cast; linarith
    have h2 : (-1 : ℤ) < pyRound x := by exact_mod_cast h
    omega
  have hhi : pyRound x ≤ 255 := by
    have h : (pyRound x : ℚ) < ((256 : ℤ) : ℚ) := by push_cast; linarith
    have h2 : pyRound x < (256 : ℤ) := by exact_mod_cast h
    omega
  unfold toExportU8
  rw [min_eq_left hhi, max_eq_left hlo]

theorem toExportS16_eq_pyRound {x : ℚ} (h0 : -32768 ≤ x) (h1 : x ≤ 32767) :
    toExportS16 x = pyRound x := by
  have hl := le_pyRound x
  have hu := pyRound_le x
  have hlo : (-32768 : ℤ) ≤ pyRound x := by
    have h : ((-32769 : ℤ) : ℚ) < (pyRound x : ℚ) := by push_cast; linarith
    have h2 : (-32769 : ℤ) < pyRound x := by exact_mod_cast h
    omega
  have hhi : pyRound x ≤ 32767 := by
    have h : (pyRound x : ℚ) < ((32768 : ℤ) : ℚ) := by push_cast; linarith
    have h2 : pyRound x < (32768 : ℤ) := by exact_mod_cast h
    omega
  unfold toExportS16
  rw [min_eq_left hhi, max_eq_left hlo]

/-- C1 counterexample: the codec functions use banker's rounding (Python 3
`round`), not ties-away-from-zero.  At the tie inputs below every codec
function disagrees with away-from-zero rounding of the scaled argument. -/
theorem claim_C1_counterexample :
    toExport8F8 (1/512) = 0 ∧ roundAwayFromZero ((1/512) * 256) = 1 ∧
    toExport4F12 (1/8192) = 0 ∧ roundAwayFromZero ((1/8192) * 4096) = 1 ∧
    toExportS16 (5/2) = 2 ∧ roundAwayFromZero (5/2) = 3 ∧
    toExportU8 (1/2) = 0 ∧ roundAwayFromZero (1/2) = 1 := by
  norm_num [toExport8F8, toExport4F12, toExportS16, toExportU8, pyRound,
    roundAwayFromZero]

/-- C1 (amended): for every rational input, each of the four codec
functions rounds with ties to even (banker's rounding, the behaviour of
Python 3 `round`): `toExport8F8` returns the half-even rounding of `x*256`,
`toExport4F12` of `x*4096`, and `toExportS16` / `toExportU8` round `x`
half-to-even before clamping to `[-32768,32767]` and `[0,255]`; never
ties-away-from-zero. -/
theorem claim_C1_rounding_half_even (x : ℚ) :
    toExport8F8 x = roundHalfEven (x * 256) ∧
    toExport4F12 x = roundHalfEven (x * 4096) ∧
    toExportS16 x = max (min (roundHalfEven x) 32767) (-32768) ∧
    toExportU8 x = max (min (roundHalfEven x) 255) 0 := by
  refine ⟨?_, ?_, ?_, ?_⟩ <;>
    simp [toExport8F8, toExport4F12, toExportS16, toExportU8,
      pyRound_eq_roundHalfEven]

/-- C9: `toExportS16` and `toExportU8` are idempotent on their clamped
ranges: applying either conversion to its own (integer) result returns
that result unchanged. -/
theorem claim_C9_idempotent (x : ℚ) :
    toExportS16 ((toExportS16 x : ℤ) : ℚ) = toExportS16 x ∧
    toExportU8 ((toExportU8 x : ℤ) : ℚ) = toExportU8 x := by
  constructor
  · have hb1 : (-32768 : ℤ) ≤ toExportS16 x := le_max_right _ _
    have hb2 : toExportS16 x ≤ 32767 :=
      max_le (min_le_right _ _) (by norm_num)
    show max (min (pyRound ((toExportS16 x : ℤ) : ℚ)) 32767) (-32768) =
      toExportS16 x
    rw [pyRound_intCast, min_eq_left hb2, max_eq_left hb1]
  · have hb1 : (0 : ℤ) ≤ toExportU8 x := le_max_right _ _
    have hb2 : toExportU8 x ≤ 255 :=
      max_le (min_le_right _ _) (by norm_num)
    show max (min (pyRound ((toExportU8 x : ℤ) : ℚ)) 255) 0 = toExportU8 x
    rw [pyRound_intCast, min_eq_left hb2, max_eq_left hb1]

/-- Source: `meshToString` (io_export_vgl.py lines 278-283 and
io_export_vgl_2_90.py lines 325-331) — the index element type starts as
`uint16_t` and is switched to `uint32_t` when `len(msh.vertices) >= 65536`. -/
def meshIndexDataType (vertexCount : ℕ) : String :=
  if 65536 ≤ vertexCount then "uint32_t" else "uint16_t"

/-- Modelled from the spec: the narrowest of uint16/uint32 that can
represent the natural number `n` (uint16 holds 0..65535). -/
def narrowestUIntType (n : ℕ) : String :=
  if n ≤ 65535 then "uint16_t" else "uint32_t"

/-- C3 counterexample: a mesh with exactly 65536 vertices has largest
index 65535, which fits uint16, yet the code declares `uint32_t`. -/
theorem claim_C3_counterexample :
    meshIndexDataType 65536 = "uint32_t" ∧
    narrowestUIntType (65536 - 1) = "uint16_t" ∧
    "uint32_t" ≠ "uint16_t" := by
  refine ⟨rfl, rfl, ?_⟩
  decide

/-- C3 (amended): the index element type recorded in the output document
is the narrowest of uint16 and uint32 that can represent `vertexCount`
itself (not `vertexCount - 1`): uint16 exactly when `vertexCount < 65536`.
In particular a mesh with exactly 65536 vertices is declared `uint32_t`
and one with 65535 vertices `uint16_t`. -/
theorem claim_C3_index_type (n : ℕ) :
    meshIndexDataType n = narrowestUIntType n ∧
    meshIndexDataType 65536 = "uint32_t" ∧
    meshIndexDataType 65535 = "uint16_t" := by
  refine ⟨?_, rfl, rfl⟩
  unfold meshIndexDataType narrowestUIntType
  split_ifs with h1 h2 <;> first | rfl | omega

/-- Source: `meshIndexDataToTriangle` / `meshTriangleToString` (both
files) — the triangle emitted for index positions `idx1 idx2 idx3` of one
polygon is `(vv[idx1], vv[idx2], vv[idx3])`.  The optional per-face color
branch appends three U8 channels and does not affect the indices; it is
not modelled here. -/
def meshIndexDataToTriangle (vv : List ℕ) (idx1 idx2 idx3 : ℕ) : ℕ × ℕ × ℕ :=
  (vv.getD idx1 0, vv.getD idx2 0, vv.getD idx3 0)

/-- Source: the polygon loop body of `meshGetTriangleData` /
`meshIndexDataToString` (both files) —
`for jj in range(2, len(ii.vertices)): ... (0, jj - 1, jj)`. -/
def polygonTriangles (vv : List ℕ) : List (ℕ × ℕ × ℕ) :=
  (List.range' 2 (vv.length - 2)).map
    (fun jj => meshIndexDataToTriangle vv 0 (jj - 1) jj)

/-- Source: `meshGetTriangleData` (io_export_vgl_2_90.py lines 273-280) /
`meshIndexDataToString` (io_export_vgl.py lines 234-241) — every polygon
of the mesh is fanned out in order. -/
def meshGetTriangleData (polygons : List (List ℕ)) : List (ℕ × ℕ × ℕ) :=
  polygons.flatMap polygonTriangles

/-- C5: fan triangulation of a polygon `[v0..v(n-1)]` with `n >= 3`
vertices yields exactly `n-2` triangles, the k-th (0-based) being
`(v0, v(k+1), v(k+2))`, i.e. `(v0, v(i-1), v(i))` for `i = k+2` in
`2..n-1`; a triangle yields itself, and `[0,1,2,3]` yields `(0,1,2)`
then `(0,2,3)`. -/
theorem claim_C5_triangulation (vv : List ℕ) (h : 3 ≤ vv.length) :
    (polygonTriangles vv).length = vv.length - 2 ∧
    polygonTriangles vv = (List.range (vv.length - 2)).map
      (fun k => (vv.getD 0 0, vv.getD (k + 1) 0, vv.getD (k + 2) 0)) ∧
    (vv.length = 3 →
      polygonTriangles vv = [(vv.getD 0 0, vv.getD 1 0, vv.getD 2 0)]) ∧
    meshGetTriangleData [[0, 1, 2, 3]] = [(0, 1, 2), (0, 2, 3)] := by
  have hmap : polygonTriangles vv = (List.range (vv.length - 2)).map
      (fun k => (vv.getD 0 0, vv.getD (k + 1) 0, vv.getD (k + 2) 0)) := by
    unfold polygonTriangles meshIndexDataToTriangle
    rw [List.range'_eq_map_range, List.map_map]
    apply List.map_congr_left
    intro k _
    have h1 : 2 + k - 1 = k + 1 := by omega
    have h2 : 2 + k = k + 2 := by omega
    simp [h1, h2]
  refine ⟨?_, hmap, ?_, ?_⟩
  · rw [hmap, List.length_map, List.length_range]
  · intro h3
    rw [hmap, h3]
    rfl
  · rfl

/-- C5 witness: the triangulation claim applied to the concrete
quadrilateral `[0,1,2,3]`. -/
theorem claim_C5_witness :
    (polygonTriangles [0, 1, 2, 3]).length = [0, 1, 2, 3].length - 2 ∧
    polygonTriangles [0, 1, 2, 3] =
      (List.range ([0, 1, 2, 3].length - 2)).map
        (fun k => ([0, 1, 2, 3].getD 0 0, [0, 1, 2, 3].getD (k + 1) 0,
          [0, 1, 2, 3].getD (k + 2) 0)) ∧
    ([0, 1, 2, 3].length = 3 →
      polygonTriangles [0, 1, 2, 3] =
        [([0, 1, 2, 3].getD 0 0, [0, 1, 2, 3].getD 1 0,
          [0, 1, 2, 3].getD 2 0)]) ∧
    meshGetTriangleData [[0, 1, 2, 3]] = [(0, 1, 2), (0, 2, 3)] :=
  claim_C5_triangulation [0, 1, 2, 3] (by decide)

/-- Source: `meshFindMaxVertexValue` (both files) — greatest
`abs(coordinate * scale axis)` over all vertices, accumulated left to
right starting from `0.0`. -/
def meshFindMaxVertexValue (verts : List (ℚ × ℚ × ℚ))
    (scale : ℚ × ℚ × ℚ) : ℚ :=
  verts.foldl
    (fun ret v =>
      max (max (max |v.1 * scale.1| |v.2.1 * scale.2.1|)
        |v.2.2 * scale.2.2|) ret)
    0

/-- Modelled from the spec: the maximum over all vertices and axes of
`|coordinate * scaleVectorAxis|`, written as a right fold over the
flattened list of per-axis absolute values. -/
def specMaxAbsScaledCoordinate (verts : List (ℚ × ℚ × ℚ))
    (scale : ℚ × ℚ × ℚ) : ℚ :=
  (verts.flatMap
    (fun v => [|v.1 * scale.1|, |v.2.1 * scale.2.1|, |v.2.2 * scale.2.2|])).foldr
    max 0

/-- Source: `exportAllMeshesToHeader` (io_export_vgl.py line 408,
io_export_vgl_2_90.py lines 501-502) — `export_scale = 32767.0 /
(meshFindMaxVertexValue(msh.data, msh.scale) * discard_mul)`; the
multiplier is the fixed `4.0` in io_export_vgl.py and
`2.0 ** vgl_export_discard_bits` in io_export_vgl_2_90.py.  Python float
division by zero raises ZeroDivisionError, modelled as the error case. -/
def computeExportScale (verts : List (ℚ × ℚ × ℚ)) (scale : ℚ × ℚ × ℚ)
    (discardMul : ℚ) : Except PyError ℚ :=
  if meshFindMaxVertexValue verts scale * discardMul = 0 then
    .error .zeroDivision
  else .ok (32767 / (meshFindMaxVertexValue verts scale * discardMul))

/-- Source: `meshGetVertexData` / `meshVertexDataToString` (both files) —
each coordinate is multiplied by its scale axis and the shared export
scale, then converted with `toExportS16`. -/
def meshGetVertexData (verts : List (ℚ × ℚ × ℚ)) (scale : ℚ × ℚ × ℚ)
    (exportScale : ℚ) : List (ℤ × ℤ × ℤ) :=
  verts.map fun v =>
    (toExportS16 (v.1 * scale.1 * exportScale),
     toExportS16 (v.2.1 * scale.2.1 * exportScale),
     toExportS16 (v.2.2 * scale.2.2 * exportScale))

theorem foldr_max_nonneg (f : ℚ × ℚ × ℚ → ℚ) :
    ∀ l : List (ℚ × ℚ × ℚ), 0 ≤ l.foldr (fun v r => max (f v) r) 0
  | [] => le_refl 0
  | v :: vs => le_trans (foldr_max_nonneg f vs) (le_max_right _ _)

theorem foldl_flipmax_eq (f : ℚ × ℚ × ℚ → ℚ) :
    ∀ (l : List (ℚ × ℚ × ℚ)) (c : ℚ), 0 ≤ c →
      l.foldl (fun ret v => max (f v) ret) c =
        max c (l.foldr (fun v r => max (f v) r) 0) := by
  intro l
  induction l with
  | nil => intro c hc; simp [max_eq_left hc]
  | cons v vs ih =>
    intro c hc
    have hc2 : 0 ≤ max (f v) c := le_trans hc (le_max_right _ _)
    simp only [List.foldl_cons, List.foldr_cons]
    rw [ih (max (f v) c) hc2, max_assoc, max_left_comm]

theorem meshFindMax_eq_spec (verts : List (ℚ × ℚ × ℚ))
    (scale : ℚ × ℚ × ℚ) :
    meshFindMaxVertexValue verts scale =
      specMaxAbsScaledCoordinate verts scale := by
  unfold meshFindMaxVertexValue specMaxAbsScaledCoordinate
  rw [foldl_flipmax_eq
    (fun v => max (max |v.1 * scale.1| |v.2.1 * scale.2.1|)
      |v.2.2 * scale.2.2|) verts 0 (le_refl 0)]
  rw [max_eq_right (foldr_max_nonneg _ verts)]
  induction verts with
  | nil => rfl
  | cons v vs ih =>
    simp only [List.foldr_cons, List.flatMap_cons, List.foldr_append,
      List.foldr_cons, List.foldr_nil]
    rw [ih, max_assoc, max_assoc]

theorem toExportS16_zero : toExportS16 (0 : ℚ) = 0 := by
  have hp : pyRound (0 : ℚ) = 0 := by simpa using pyRound_intCast 0
  unfold toExportS16
  rw [hp]
  decide

theorem toExportS16_quarter : toExportS16 (32767 / 4 : ℚ) = 8192 := by
  have hf : ⌊(32767 / 4 : ℚ)⌋ = 8191 := by norm_num
  have hp : pyRound (32767 / 4 : ℚ) = 8192 := by
    unfold pyRound
    rw [hf]
    norm_num
  unfold toExportS16
  rw [hp]
  decide

theorem quad_max_vertex_value :
    meshFindMaxVertexValue [(-1, -1, 0), (1, -1, 0), (1, 1, 0), (-1, 1, 0)]
      (1, 1, 1) = 1 := by
  unfold meshFindMaxVertexValue
  norm_num [max_def, abs]

/-- C6: for every mesh whose scaled extent is nonzero, the shared export
scale is `32767 / (maxAbsScaledCoordinate * discardMul)` with
`maxAbsScaledCoordinate` the maximum over all vertices and axes of
`|coordinate * scaleAxis|`; for a unit quad with scale `(1,1,1)` and
headroom divisor 4 the export scale is `8191.75 = 32767/(1*4)`, and
vertex `(1,0,0)` then encodes to `toExportS16(8191.75) = 8192`. -/
theorem claim_C6_export_scale (verts : List (ℚ × ℚ × ℚ))
    (scale : ℚ × ℚ × ℚ) (d : ℚ)
    (h : meshFindMaxVertexValue verts scale * d ≠ 0) :
    computeExportScale verts scale d =
      .ok (32767 / (specMaxAbsScaledCoordinate verts scale * d)) ∧
    computeExportScale [(-1, -1, 0), (1, -1, 0), (1, 1, 0), (-1, 1, 0)]
      (1, 1, 1) 4 = .ok 8191.75 ∧
    (8191.75 : ℚ) = 32767 / (1 * 4) ∧
    meshGetVertexData [(1, 0, 0)] (1, 1, 1) 8191.75 = [(8192, 0, 0)] := by
  refine ⟨?_, ?_, by norm_num, ?_⟩
  · unfold computeExportScale
    rw [if_neg h, meshFindMax_eq_spec]
  · unfold computeExportScale
    rw [quad_max_vertex_value]
    norm_num
  · have h1 : (1 : ℚ) * 1 * 8191.75 = 32767 / 4 := by norm_num
    have h0 : (0 : ℚ) * 1 * 8191.75 = 0 := by norm_num
    simp only [meshGetVertexData, List.map_cons, List.map_nil, h1, h0,
      toExportS16_quarter, toExportS16_zero]

/-- C6 witness: the export-scale claim applied to the concrete unit quad
with scale `(1,1,1)` and headroom divisor 4. -/
theorem claim_C6_witness :
    computeExportScale [(-1, -1, 0), (1, -1, 0), (1, 1, 0), (-1, 1, 0)]
      (1, 1, 1) 4 =
      .ok (32767 / (specMaxAbsScaledCoordinate
        [(-1, -1, 0), (1, -1, 0), (1, 1, 0), (-1, 1, 0)] (1, 1, 1) * 4)) ∧
    computeExportScale [(-1, -1, 0), (1, -1, 0), (1, 1, 0), (-1, 1, 0)]
      (1, 1, 1) 4 = .ok 8191.75 ∧
    (8191.75 : ℚ) = 32767 / (1 * 4) ∧
    meshGetVertexData [(1, 0, 0)] (1, 1, 1) 8191.75 = [(8192, 0, 0)] :=
  claim_C6_export_scale
    [(-1, -1, 0), (1, -1, 0), (1, 1, 0), (-1, 1, 0)] (1, 1, 1) 4
    (by rw [quad_max_vertex_value]; norm_num)

/-- One emitted per-vertex weight record: three weight bytes followed by
three remapped bone indices. -/
structure WeightRecord where
  w1 : ℤ
  w2 : ℤ
  w3 : ℤ
  b1 : ℕ
  b2 : ℕ
  b3 : ℕ
deriving DecidableEq, Repr

/-- Source: the `for ii in data: ii[1] = vmap[ii[1]]` remapping loop of
`normalizedWeightData` (both files); the vertex-group map is modelled as
a total function. -/
def remapped (data : List (ℚ × ℕ)) (vmap : ℕ → ℕ) : List (ℚ × ℕ) :=
  data.map (fun p => (p.1, vmap p.2))

/-- Source: `while 3 > len(data): data += [(0.0, 0)]` (both files). -/
def padTo3 (l : List (ℚ × ℕ)) : List (ℚ × ℕ) :=
  l ++ List.replicate (3 - l.length) (0, 0)

/-- Stable descending insertion used by `sortDesc`: the new element goes
after every existing element whose weight is at least as large, matching
the stability of Python `sorted(..., key=lambda x: x[0], reverse=True)`. -/
def insertDesc (x : ℚ × ℕ) : List (ℚ × ℕ) → List (ℚ × ℕ)
  | [] => [x]
  | y :: ys => if x.1 ≤ y.1 then y :: insertDesc x ys else x :: y :: ys

/-- Source: `sorted(data, key=lambda x: x[0], reverse=True)` (both
files) — a stable sort by weight, descending. -/
def sortDesc (l : List (ℚ × ℕ)) : List (ℚ × ℕ) :=
  l.foldl (fun acc x => insertDesc x acc) []

/-- Source: `normalizedWeightData` of io_export_vgl_2_90.py (lines
282-299) keeps exactly the top three entries: remap, sort, pad to three,
truncate with `data[:3]`. -/
def kept290 (data : List (ℚ × ℕ)) (vmap : ℕ → ℕ) : List (ℚ × ℕ) :=
  (padTo3 (sortDesc (remapped data vmap))).take 3

/-- Source: `normalizedWeightData` of io_export_vgl.py (lines 243-258) —
remap, pad to three, sort; the normalization total sums over the whole
(untruncated) list; each of the first three weights is scaled by
`255.0 / total` and converted with `toExportU8`.  A zero total makes the
Python division raise ZeroDivisionError, modelled as the error case. -/
def normalizedWeightData (data : List (ℚ × ℕ)) (vmap : ℕ → ℕ) :
    Except PyError WeightRecord :=
  let d := sortDesc (padTo3 (remapped data vmap))
  let total := (d.map Prod.fst).sum
  if total = 0 then .error .zeroDivision
  else
    .ok ⟨toExportU8 ((d.getD 0 (0, 0)).1 * 255 / total),
         toExportU8 ((d.getD 1 (0, 0)).1 * 255 / total),
         toExportU8 ((d.getD 2 (0, 0)).1 * 255 / total),
         (d.getD 0 (0, 0)).2, (d.getD 1 (0, 0)).2, (d.getD 2 (0, 0)).2⟩

/-- Source: `normalizedWeightData` of io_export_vgl_2_90.py (lines
282-299) — remap, sort, pad, truncate to the top three, total over the
three kept entries only, then the same byte conversion. -/
def normalizedWeightData290 (data : List (ℚ × ℕ)) (vmap : ℕ → ℕ) :
    Except PyError WeightRecord :=
  let d := kept290 data vmap
  let total := (d.map Prod.fst).sum
  if total = 0 then .error .zeroDivision
  else
    .ok ⟨toExportU8 ((d.getD 0 (0, 0)).1 * 255 / total),
         toExportU8 ((d.getD 1 (0, 0)).1 * 255 / total),
         toExportU8 ((d.getD 2 (0, 0)).1 * 255 / total),
         (d.getD 0 (0, 0)).2, (d.getD 1 (0, 0)).2, (d.getD 2 (0, 0)).2⟩

/-- Source: `meshWeightDataToString` (io_export_vgl.py lines 260-271) /
`meshGetWeightData` (io_export_vgl_2_90.py lines 301-312) — per vertex,
negative weights raise RuntimeError, then the vertex's (weight, group)
pairs are normalized; any exception propagates out of the exporter
uncaught (there is no try/except anywhere in either file).  The
per-record string formatting is omitted; the records determine it. -/
def meshWeightDataToString (vertices : List (List (ℚ × ℕ)))
    (vmap : ℕ → ℕ) : Except PyError (List WeightRecord) :=
  vertices.mapM (fun groups =>
    if groups.any (fun jj => jj.1 < 0) then Except.error .runtimeError
    else normalizedWeightData groups vmap)

/-- Source: `meshGetWeightData` (io_export_vgl_2_90.py lines 301-312),
same shape as `meshWeightDataToString` but calling the 2.90 variant of
`normalizedWeightData`. -/
def meshGetWeightData (vertices : List (List (ℚ × ℕ)))
    (vmap : ℕ → ℕ) : Except PyError (List WeightRecord) :=
  vertices.mapM (fun groups =>
    if groups.any (fun jj => jj.1 < 0) then Except.error .runtimeError
    else normalizedWeightData290 groups vmap)

/-- Descending sortedness by weight, the invariant established by
`sortDesc`. -/
def SortedDesc (l : List (ℚ × ℕ)) : Prop :=
  l.Pairwise (fun a b => b.1 ≤ a.1)

theorem insertDesc_perm (x : ℚ × ℕ) :
    ∀ l : List (ℚ × ℕ), List.Perm (insertDesc x l) (x :: l)
  | [] => List.Perm.refl _
  | y :: ys => by
    unfold insertDesc
    split_ifs with h
    · exact ((insertDesc_perm x ys).cons y).trans (List.Perm.swap x y ys)
    · exact List.Perm.refl _

theorem foldl_insertDesc_perm :
    ∀ (l acc : List (ℚ × ℕ)),
      List.Perm (l.foldl (fun a x => insertDesc x a) acc) (acc ++ l)
  | [], acc => by simp
  | x :: xs, acc => by
    simp only [List.foldl_cons]
    refine (foldl_insertDesc_perm xs (insertDesc x acc)).trans ?_
    exact ((insertDesc_perm x acc).append_right xs).trans List.perm_middle.symm

theorem sortDesc_perm (l : List (ℚ × ℕ)) : List.Perm (sortDesc l) l := by
  simpa using foldl_insertDesc_perm l []

theorem insertDesc_sorted (x : ℚ × ℕ) :
    ∀ {l : List (ℚ × ℕ)}, SortedDesc l → SortedDesc (insertDesc x l)
  | [], _ => List.pairwise_singleton _ _
  | y :: ys, h => by
    rw [SortedDesc, List.pairwise_cons] at h
    unfold insertDesc
    split_ifs with hxy
    · rw [SortedDesc, List.pairwise_cons]
      refine ⟨?_, insertDesc_sorted x h.2⟩
      intro z hz
      have hz2 := (insertDesc_perm x ys).mem_iff.mp hz
      rcases List.mem_cons.mp hz2 with rfl | hz3
      · exact hxy
      · exact h.1 z hz3
    · push_neg at hxy
      rw [SortedDesc, List.pairwise_cons]
      constructor
      · intro z hz
        rcases List.mem_cons.mp hz with rfl | hz3
        · exact le_of_lt hxy
        · exact le_trans (h.1 z hz3) (le_of_lt hxy)
      · rw [List.pairwise_cons]
        exact ⟨h.1, h.2⟩

theorem sortDesc_sorted (l : List (ℚ × ℕ)) : SortedDesc (sortDesc l) := by
  suffices h : ∀ (l acc : List (ℚ × ℕ)), SortedDesc acc →
      SortedDesc (l.foldl (fun a x => insertDesc x a) acc) from
    h l [] List.Pairwise.nil
  intro l
  induction l with
  | nil => exact fun acc h => h
  | cons x xs ih => exact fun acc h => ih _ (insertDesc_sorted x h)

theorem kept290_structure (data : List (ℚ × ℕ)) (vmap : ℕ → ℕ)
    (hnn : ∀ p ∈ data, 0 ≤ p.1) (hpos : ∃ p ∈ data, 0 < p.1) :
    ∃ k0 k1 k2 b0 b1 b2,
      kept290 data vmap = [(k0, b0), (k1, b1), (k2, b2)] ∧
      k1 ≤ k0 ∧ k2 ≤ k1 ∧ 0 ≤ k2 ∧ 0 < k0 := by
  have sp := sortDesc_perm (remapped data vmap)
  have ss := sortDesc_sorted (remapped data vmap)
  have hnn2 : ∀ p ∈ sortDesc (remapped data vmap), 0 ≤ p.1 := by
    intro p hp
    have hp2 : p ∈ remapped data vmap := sp.mem_iff.mp hp
    rcases List.mem_map.mp hp2 with ⟨q, hq, rfl⟩
    exact hnn q hq
  have hpos2 : ∃ p ∈ sortDesc (remapped data vmap), 0 < p.1 := by
    rcases hpos with ⟨q, hq, hq2⟩
    exact ⟨(q.1, vmap q.2), sp.mem_iff.mpr (List.mem_map.mpr ⟨q, hq, rfl⟩), hq2⟩
  rcases hseq : sortDesc (remapped data vmap) with _ | ⟨a, _ | ⟨b, _ | ⟨c, t⟩⟩⟩
  · rw [hseq] at hpos2
    simp at hpos2
  · rw [hseq] at hnn2 hpos2
    have ha : 0 < a.1 := by
      rcases hpos2 with ⟨p, hp, hp2⟩
      rcases List.mem_singleton.mp hp with rfl
      exact hp2
    refine ⟨a.1, 0, 0, a.2, 0, 0, ?_, le_of_lt ha, le_refl 0, le_refl 0, ha⟩
    unfold kept290 padTo3
    rw [hseq]
    simp
  · rw [hseq] at hnn2 hpos2 ss
    rw [SortedDesc, List.pairwise_cons] at ss
    have hba : b.1 ≤ a.1 := ss.1 b (List.mem_singleton.mpr rfl)
    have ha : 0 < a.1 := by
      rcases hpos2 with ⟨p, hp, hp2⟩
      rcases List.mem_cons.mp hp with rfl | hp3
      · exact hp2
      · rcases List.mem_singleton.mp hp3 with rfl
        exact lt_of_lt_of_le hp2 hba
    have hb : 0 ≤ b.1 := hnn2 b (List.mem_cons.mpr (Or.inr (List.mem_singleton.mpr rfl)))
    refine ⟨a.1, b.1, 0, a.2, b.2, 0, ?_, hba, hb, le_refl 0, ha⟩
    unfold kept290 padTo3
    rw [hseq]
    simp
  · rw [hseq] at hnn2 hpos2 ss
    rw [SortedDesc, List.pairwise_cons] at ss
    have hss2 := ss.2
    rw [List.pairwise_cons] at hss2
    have hba : b.1 ≤ a.1 := ss.1 b (by simp)
    have hcb : c.1 ≤ b.1 := hss2.1 c (by simp)
    have hc : 0 ≤ c.1 := hnn2 c (by simp)
    have ha : 0 < a.1 := by
      rcases hpos2 with ⟨p, hp, hp2⟩
      have hple : p.1 ≤ a.1 := by
        rcases List.mem_cons.mp hp with rfl | hp3
        · exact le_refl _
        · exact ss.1 p hp3
      exact lt_of_lt_of_le hp2 hple
    refine ⟨a.1, b.1, c.1, a.2, b.2, c.2, ?_, hba, hcb, hc, ha⟩
    unfold kept290 padTo3
    rw [hseq]
    simp [List.take_succ_cons]

theorem weight_bytes_core (k0 k1 k2 : ℚ) (h01 : k1 ≤ k0) (h12 : k2 ≤ k1)
    (h2 : 0 ≤ k2) (h0 : 0 < k0) :
    254 ≤ toExportU8 (k0 * 255 / (k0 + k1 + k2)) +
        toExportU8 (k1 * 255 / (k0 + k1 + k2)) +
        toExportU8 (k2 * 255 / (k0 + k1 + k2)) ∧
    toExportU8 (k0 * 255 / (k0 + k1 + k2)) +
        toExportU8 (k1 * 255 / (k0 + k1 + k2)) +
        toExportU8 (k2 * 255 / (k0 + k1 + k2)) ≤ 256 ∧
    toExportU8 (k1 * 255 / (k0 + k1 + k2)) ≤
        toExportU8 (k0 * 255 / (k0 + k1 + k2)) ∧
    toExportU8 (k2 * 255 / (k0 + k1 + k2)) ≤
        toExportU8 (k1 * 255 / (k0 + k1 + k2)) := by
  have h1nn : 0 ≤ k1 := le_trans h2 h12
  have h0nn : 0 ≤ k0 := le_of_lt h0
  have htpos : 0 < k0 + k1 + k2 := by linarith
  have htne : k0 + k1 + k2 ≠ 0 := ne_of_gt htpos
  have hx0nn : 0 ≤ k0 * 255 / (k0 + k1 + k2) := by positivity
  have hx1nn : 0 ≤ k1 * 255 / (k0 + k1 + k2) := by positivity
  have hx2nn : 0 ≤ k2 * 255 / (k0 + k1 + k2) := by positivity
  have hx0le : k0 * 255 / (k0 + k1 + k2) ≤ 255 := by
    rw [div_le_iff htpos]
    nlinarith
  have hx1le : k1 * 255 / (k0 + k1 + k2) ≤ 255 := by
    rw [div_le_iff htpos]
    nlinarith
  have hx2le : k2 * 255 / (k0 + k1 + k2) ≤ 255 := by
    rw [div_le_iff htpos]
    nlinarith
  have hsum : k0 * 255 / (k0 + k1 + k2) + k1 * 255 / (k0 + k1 + k2) +
      k2 * 255 / (k0 + k1 + k2) = 255 := by
    field_simp
    ring
  rw [toExportU8_eq_pyRound hx0nn hx0le, toExportU8_eq_pyRound hx1nn hx1le,
    toExportU8_eq_pyRound hx2nn hx2le]
  have hl0 := le_pyRound (k0 * 255 / (k0 + k1 + k2))
  have hl1 := le_pyRound (k1 * 255 / (k0 + k1 + k2))
  have hl2 := le_pyRound (k2 * 255 / (k0 + k1 + k2))
  have hu0 := pyRound_le (k0 * 255 / (k0 + k1 + k2))
  have hu1 := pyRound_le (k1 * 255 / (k0 + k1 + k2))
  have hu2 := pyRound_le (k2 * 255 / (k0 + k1 + k2))
  refine ⟨?_, ?_, ?_, ?_⟩
  · have hq : ((253 : ℤ) : ℚ) <
        ((pyRound (k0 * 255 / (k0 + k1 + k2)) +
          pyRound (k1 * 255 / (k0 + k1 + k2)) +
          pyRound (k2 * 255 / (k0 + k1 + k2)) : ℤ) : ℚ) := by
      push_cast
      linarith
    have hz : (253 : ℤ) < pyRound (k0 * 255 / (k0 + k1 + k2)) +
        pyRound (k1 * 255 / (k0 + k1 + k2)) +
        pyRound (k2 * 255 / (k0 + k1 + k2)) := by exact_mod_cast hq
    omega
  · have hq : ((pyRound (k0 * 255 / (k0 + k1 + k2)) +
        pyRound (k1 * 255 / (k0 + k1 + k2)) +
        pyRound (k2 * 255 / (k0 + k1 + k2)) : ℤ) : ℚ) < ((257 : ℤ) : ℚ) := by
      push_cast
      linarith
    have hz : pyRound (k0 * 255 / (k0 + k1 + k2)) +
        pyRound (k1 * 255 / (k0 + k1 + k2)) +
        pyRound (k2 * 255 / (k0 + k1 + k2)) < (257 : ℤ) := by exact_mod_cast hq
    omega
  · apply pyRound_mono
    gcongr
  · apply pyRound_mono
    gcongr

/-- C2 (amended): for every vertex influence list in which every weight is
`>= 0` and at least one weight is `> 0`, the record emitted by the 2.90
`normalizedWeightData` has its three weight bytes summing to at least 254
and at most 256 (not 253..255), the bytes appear in descending order of
their pre-rounding weights, and the normalization total is the sum of only
the 3 kept (top) weights, zero-weight padding stubs contributing 0.  (In
the legacy revision the total instead sums all influences; see the
counterexample.) -/
theorem claim_C2_weight_normalization (data : List (ℚ × ℕ)) (vmap : ℕ → ℕ)
    (hnn : ∀ p ∈ data, 0 ≤ p.1) (hpos : ∃ p ∈ data, 0 < p.1) :
    ∃ k0 k1 k2 b0 b1 b2,
      kept290 data vmap = [(k0, b0), (k1, b1), (k2, b2)] ∧
      k1 ≤ k0 ∧ k2 ≤ k1 ∧ 0 ≤ k2 ∧
      normalizedWeightData290 data vmap = Except.ok
        ⟨toExportU8 (k0 * 255 / (k0 + k1 + k2)),
         toExportU8 (k1 * 255 / (k0 + k1 + k2)),
         toExportU8 (k2 * 255 / (k0 + k1 + k2)), b0, b1, b2⟩ ∧
      254 ≤ toExportU8 (k0 * 255 / (k0 + k1 + k2)) +
          toExportU8 (k1 * 255 / (k0 + k1 + k2)) +
          toExportU8 (k2 * 255 / (k0 + k1 + k2)) ∧
      toExportU8 (k0 * 255 / (k0 + k1 + k2)) +
          toExportU8 (k1 * 255 / (k0 + k1 + k2)) +
          toExportU8 (k2 * 255 / (k0 + k1 + k2)) ≤ 256 ∧
      toExportU8 (k1 * 255 / (k0 + k1 + k2)) ≤
          toExportU8 (k0 * 255 / (k0 + k1 + k2)) ∧
      toExportU8 (k2 * 255 / (k0 + k1 + k2)) ≤
          toExportU8 (k1 * 255 / (k0 + k1 + k2)) := by
  rcases kept290_structure data vmap hnn hpos with
    ⟨k0, k1, k2, b0, b1, b2, hk, h01, h12, h2nn, h0⟩
  have core := weight_bytes_core k0 k1 k2 h01 h12 h2nn h0
  refine ⟨k0, k1, k2, b0, b1, b2, hk, h01, h12, h2nn, ?_,
    core.1, core.2.1, core.2.2.1, core.2.2.2⟩
  have htpos : 0 < k0 + k1 + k2 := by
    have hmid : 0 ≤ k1 := le_trans h2nn h12
    linarith
  have htne2 : k0 + (k1 + (k2 + 0)) ≠ 0 := by
    intro hzz
    exact absurd (by linarith : k0 + k1 + k2 = 0) (ne_of_gt htpos)
  simp only [normalizedWeightData290, hk, List.map_cons, List.map_nil,
    List.sum_cons, List.sum_nil, List.getD_cons_zero, List.getD_cons_succ]
  rw [if_neg htne2]
  simp [add_zero, add_assoc]

/-- C2 counterexample: with the 2.90 `normalizedWeightData`, the influence
list `[(171,0),(171,1),(168,2)]` (all weights nonnegative, some positive)
yields weight bytes `(86, 86, 84)` whose sum is 256 > 255, refuting the
claimed upper bound; and with the legacy `normalizedWeightData`, four
equal influences yield bytes `(64, 64, 64)` whose sum 192 < 253 refutes
the claimed lower bound, because the legacy normalization total (4) sums
all influences rather than only the 3 kept ones (3). -/
theorem claim_C2_counterexample :
    normalizedWeightData290 [(171, 0), (171, 1), (168, 2)] (fun b => b) =
      Except.ok ⟨86, 86, 84, 0, 1, 2⟩ ∧
    (255 : ℤ) < 86 + 86 + 84 ∧
    normalizedWeightData [(1, 0), (1, 1), (1, 2), (1, 3)] (fun b => b) =
      Except.ok ⟨64, 64, 64, 0, 1, 2⟩ ∧
    (64 + 64 + 64 : ℤ) < 253 ∧
    ((kept290 [(1, 0), (1, 1), (1, 2), (1, 3)] (fun b => b)).map
      Prod.fst).sum = 3 ∧
    ((sortDesc (padTo3 (remapped [(1, 0), (1, 1), (1, 2), (1, 3)]
      (fun b => b)))).map Prod.fst).sum = 4 := by
  refine ⟨?_, by norm_num, ?_, by norm_num, ?_, ?_⟩ <;>
    norm_num [normalizedWeightData290, normalizedWeightData, kept290,
      remapped, padTo3, sortDesc, insertDesc, toExportU8, pyRound]

/-- C2 witness: the weight-normalization claim applied to the concrete
influence list `[(2,0),(1,1)]`. -/
theorem claim_C2_witness :
    ∃ k0 k1 k2 b0 b1 b2,
      kept290 [(2, 0), (1, 1)] (fun b => b) =
        [(k0, b0), (k1, b1), (k2, b2)] ∧
      k1 ≤ k0 ∧ k2 ≤ k1 ∧ 0 ≤ k2 ∧
      normalizedWeightData290 [(2, 0), (1, 1)] (fun b => b) = Except.ok
        ⟨toExportU8 (k0 * 255 / (k0 + k1 + k2)),
         toExportU8 (k1 * 255 / (k0 + k1 + k2)),
         toExportU8 (k2 * 255 / (k0 + k1 + k2)), b0, b1, b2⟩ ∧
      254 ≤ toExportU8 (k0 * 255 / (k0 + k1 + k2)) +
          toExportU8 (k1 * 255 / (k0 + k1 + k2)) +
          toExportU8 (k2 * 255 / (k0 + k1 + k2)) ∧
      toExportU8 (k0 * 255 / (k0 + k1 + k2)) +
          toExportU8 (k1 * 255 / (k0 + k1 + k2)) +
          toExportU8 (k2 * 255 / (k0 + k1 + k2)) ≤ 256 ∧
      toExportU8 (k1 * 255 / (k0 + k1 + k2)) ≤
          toExportU8 (k0 * 255 / (k0 + k1 + k2)) ∧
      toExportU8 (k2 * 255 / (k0 + k1 + k2)) ≤
          toExportU8 (k1 * 255 / (k0 + k1 + k2)) :=
  claim_C2_weight_normalization [(2, 0), (1, 1)] (fun b => b)
    (by norm_num) ⟨(2, 0), by norm_num, by norm_num⟩

/-- C10: a vertex with an empty influence list (or only zero weights)
makes `normalizedWeightData` compute a zero total and divide by it;
Python raises ZeroDivisionError, which no code in either exporter file
catches, so the export aborts with an error that is none of the
documented fatal kinds (modelled here: distinct from the RuntimeError
used for the documented input-validation failures).  Shown for the legacy
function on an empty list, the 2.90 function on a zero-weight list, and
propagating out of the per-mesh weight walk of both revisions. -/
theorem claim_C10_zero_division :
    normalizedWeightData [] (fun b => b) = Except.error PyError.zeroDivision ∧
    normalizedWeightData290 [(0, 3)] (fun b => b) =
      Except.error PyError.zeroDivision ∧
    meshWeightDataToString [[]] (fun b => b) =
      Except.error PyError.zeroDivision ∧
    meshGetWeightData [[(0, 0)]] (fun b => b) =
      Except.error PyError.zeroDivision ∧
    PyError.zeroDivision ≠ PyError.runtimeError := by
  have hrep3 : List.replicate 3 ((0 : ℚ), (0 : ℕ)) = [(0, 0), (0, 0), (0, 0)] := rfl
  have hrep2 : List.replicate 2 ((0 : ℚ), (0 : ℕ)) = [(0, 0), (0, 0)] := rfl
  refine ⟨?_, ?_, ?_, ?_, by decide⟩
  · norm_num [-Prod.mk_zero_zero, normalizedWeightData, remapped, padTo3,
      hrep3, sortDesc, insertDesc]
  · norm_num [-Prod.mk_zero_zero, normalizedWeightData290, kept290,
      remapped, padTo3, hrep2, sortDesc, insertDesc]
  · norm_num [-Prod.mk_zero_zero, meshWeightDataToString, List.mapM.loop,
      normalizedWeightData, remapped, padTo3, hrep3, sortDesc, insertDesc,
      Bind.bind, Except.bind]
  · norm_num [-Prod.mk_zero_zero, meshGetWeightData, List.mapM.loop,
      normalizedWeightData290, kept290, remapped, padTo3, hrep2, sortDesc,
      insertDesc, Bind.bind, Except.bind]

/-- Python/`re` ASCII whitespace: the character class `\s` and
`str.strip()` both treat these six characters as whitespace. -/
def isPySpace (c : Char) : Bool :=
  c = ' ' || c = '\t' || c = '\n' || c = '\r' || c = '\x0b' || c = '\x0c'

/-- Drops `p` as a literal prefix from `s`, returning the remainder. -/
def dropPrefixOpt : List Char → List Char → Option (List Char)
  | [], s => some s
  | _ :: _, [] => none
  | p :: ps, c :: cs => if p = c then dropPrefixOpt ps cs else none

/-- Source: one attempted match of the regex `\[\[\s*NAME\s*\]\]` at the
head of the text (`Template.format`, both files), returning the text
after the match.  Faithful for names that do not start or end with
whitespace and contain neither `]` nor regex metacharacters, which holds
for every placeholder name the exporter uses. -/
def placeholderMatch (name : List Char) (s : List Char) :
    Option (List Char) :=
  match s with
  | c1 :: c2 :: rest =>
    if c1 = '[' ∧ c2 = '[' then
      match dropPrefixOpt name (rest.dropWhile isPySpace) with
      | none => none
      | some r2 =>
        match r2.dropWhile isPySpace with
        | d1 :: d2 :: r3 => if d1 = ']' ∧ d2 = ']' then some r3 else none
        | _ => none
    else none
  | _ => none

/-- Source: `re.subn(r'\[\[\s*%s\s*\]\]' % kk, vv, ret)` in
`Template.format` — scan left to right, replace non-overlapping matches,
count them.  The recursion is bounded by a fuel argument; fuel equal to
the text length suffices because every match consumes at least four
characters.  The `vv = value.replace(backslash, double backslash)`
escaping followed by regex replacement-template expansion inserts the
value text verbatim, so the replacement is spliced as-is. -/
def reSubnAux (name repl : List Char) : ℕ → List Char → List Char × ℕ
  | _, [] => ([], 0)
  | 0, s => (s, 0)
  | fuel + 1, c :: cs =>
    match placeholderMatch name (c :: cs) with
    | some rest =>
      let rn := reSubnAux name repl fuel rest
      (repl ++ rn.1, rn.2 + 1)
    | none =>
      let rn := reSubnAux name repl fuel cs
      (c :: rn.1, rn.2)

def reSubnPlaceholder (name repl s : List Char) : List Char × ℕ :=
  reSubnAux name repl s.length s

/-- Source: one attempted match of `\[\[([^\]]+)\]\]` at the head of the
text, returning the captured name and the remainder. -/
def genericMatch : List Char → Option (List Char × List Char)
  | c1 :: c2 :: rest =>
    if c1 = '[' ∧ c2 = '[' then
      match rest.dropWhile (fun c => c ≠ ']') with
      | d1 :: d2 :: r2 =>
        if rest.takeWhile (fun c => c ≠ ']') ≠ [] ∧ d1 = ']' ∧ d2 = ']' then
          some (rest.takeWhile (fun c => c ≠ ']'), r2)
        else none
      | _ => none
    else none
  | _ => none

/-- Source: `re.findall(r'\[\[([^\]]+)\]\]', ret)` followed by
`re.subn(r'\[\[[^\]]+\]\]', "", ret)` in `Template.format` — the two
scans find the same non-overlapping matches left to right, so they are
modelled as one fuel-bounded pass returning the result text, the deletion
count and the captured names in order. -/
def reSubnDeleteAux : ℕ → List Char → List Char × ℕ × List (List Char)
  | _, [] => ([], 0, [])
  | 0, s => (s, 0, [])
  | fuel + 1, c :: cs =>
    match genericMatch (c :: cs) with
    | some (nm, rest) =>
      let rn := reSubnDeleteAux fuel rest
      (rn.1, rn.2.1 + 1, nm :: rn.2.2)
    | none =>
      let rn := reSubnDeleteAux fuel cs
      (c :: rn.1, rn.2.1, rn.2.2)

def reSubnDeleteAll (s : List Char) : List Char × ℕ × List (List Char) :=
  reSubnDeleteAux s.length s

/-- Diagnostics printed by the modelled code paths. -/
inductive LogEntry where
  | substitutionNoMatches : List Char → LogEntry
  | unmatchedPlaceholders : List (List Char) → ℕ → LogEntry
  | cannotDeduceTimestamp : List Char → LogEntry
deriving DecidableEq, Repr

/-- Source: `is_verbose` (both files) — hardcoded `False`. -/
def isVerbose : Bool := false

/-- Tell whether a log entry is the unmatched-placeholder diagnostic. -/
def LogEntry.isUnmatchedDiag : LogEntry → Bool
  | .unmatchedPlaceholders _ _ => true
  | _ => false

/-- Source: the per-key body of the substitution loop in
`Template.format` — replace every occurrence of the key's placeholder and
warn when the key matched nothing. -/
def templateStep (acc : List Char × List LogEntry)
    (kv : List Char × List Char) : List Char × List LogEntry :=
  let rn := reSubnPlaceholder kv.1 kv.2 acc.1
  (rn.1,
   if rn.2 = 0 then acc.2 ++ [LogEntry.substitutionNoMatches kv.1]
   else acc.2)

/-- Source: `Template.format` (both files, lines 63-76): substitute each
provided key in dict (insertion) order, then delete every remaining
placeholder; the unmatched-placeholder diagnostic is printed only under
`if num and is_verbose()`.  The substitution dict is modelled as an
association list; the unmatched name list is deduplicated as
`list(set(...))` is. -/
def templateFormat (content : List Char)
    (substitutions : List (List Char × List Char)) :
    List Char × List LogEntry :=
  let a := substitutions.foldl templateStep (content, [])
  let d := reSubnDeleteAll a.1
  (d.1,
   if d.2.1 ≠ 0 ∧ isVerbose = true then
     a.2 ++ [LogEntry.unmatchedPlaceholders d.2.2.dedup d.2.1]
   else a.2)

theorem templateFold_log_all (substitutions : List (List Char × List Char)) :
    ∀ st : List Char × List LogEntry,
      (st.2.all fun e => ! e.isUnmatchedDiag) = true →
      (((substitutions.foldl templateStep st).2).all
        fun e => ! e.isUnmatchedDiag) = true := by
  induction substitutions with
  | nil => exact fun st h => h
  | cons kv rest ih =>
    intro st h
    simp only [List.foldl_cons]
    apply ih
    show ((if (reSubnPlaceholder kv.1 kv.2 st.1).2 = 0 then
        st.2 ++ [LogEntry.substitutionNoMatches kv.1] else st.2).all
      fun e => ! e.isUnmatchedDiag) = true
    split_ifs with hz
    · rw [List.all_append, h, Bool.true_and, List.all_cons, List.all_nil]
      rfl
    · exact h

/-- C7 counterexample: formatting the template `X=[[A]]` with no
substitutions yields `X=` but logs NO diagnostic (the log is empty),
because the unmatched-placeholder message is gated behind the hardcoded
`is_verbose() == False`; the claim requires a diagnostic naming `A`. -/
theorem claim_C7_counterexample :
    templateFormat "X=[[A]]".toList [] = ("X=".toList, []) := by
  decide

/-- C7 (amended): `Template.format` replaces every occurrence of each
substituted placeholder (whitespace-tolerant) with its value and deletes
every uncovered placeholder in a final pass — `X=[[A]]` with `{A: 5}`
yields `X=5` and with no substitutions yields `X=` — but the diagnostic
naming the unmatched placeholders is emitted only when verbose mode is
enabled, and the shipped `is_verbose()` is hardcoded `False`, so for
every template and substitution map no unmatched-placeholder diagnostic
is ever logged. -/
theorem claim_C7_template_format (content : List Char)
    (substitutions : List (List Char × List Char)) :
    templateFormat "X=[[A]]".toList [("A".toList, "5".toList)] =
      ("X=5".toList, []) ∧
    (templateFormat "X=[[A]]".toList []).1 = "X=".toList ∧
    ((templateFormat content substitutions).2.all
      fun e => ! e.isUnmatchedDiag) = true := by
  refine ⟨by decide, by decide, ?_⟩
  have hfalse : ¬ ((reSubnDeleteAll
      ((substitutions.foldl templateStep (content, [])).1)).2.1 ≠ 0 ∧
      isVerbose = true) := by
    intro hcontra
    simpa [isVerbose] using hcontra.2
  simp only [templateFormat]
  rw [if_neg hfalse]
  exact templateFold_log_all substitutions (content, []) rfl

/-- Python `str.strip()`: remove leading and trailing whitespace. -/
def pyStrip (s : List Char) : List Char :=
  ((s.dropWhile isPySpace).reverse.dropWhile isPySpace).reverse

/-- Character class `[\d\.]` of the pose-name regex. -/
def isDigitOrDot (c : Char) : Bool :=
  c.isDigit || c = '.'

/-- Decimal digits to a natural number, most significant first. -/
def digitsToNat (ds : List Char) : ℕ :=
  ds.foldl (fun a c => a * 10 + (c.toNat - 48)) 0

/-- Python `float()` applied to a token drawn from `[\d\.]+`: it succeeds
exactly when the token has at most one dot and at least one digit
(`"1.2.3"`, `"."`, `".."` raise ValueError), and yields the decimal
value. -/
def pyFloatOfToken (t : List Char) : Option ℚ :=
  if t.all isDigitOrDot ∧ t.countP (fun c => c = '.') ≤ 1 ∧
      t.any Char.isDigit then
    some ((digitsToNat (t.takeWhile (fun c => c ≠ '.')) : ℚ) +
      (digitsToNat ((t.dropWhile (fun c => c ≠ '.')).drop 1) : ℚ) /
        10 ^ ((t.dropWhile (fun c => c ≠ '.')).drop 1).length)
  else none

/-- Source: `re.match(r'\s*(\S+)\s+([\d\.]+)\s*$', pose.name.strip())` in
`Pose.__init__` (both files).  On the stripped name the regex matches
exactly when the text decomposes as a nonempty non-space run, a nonempty
space run, and a nonempty all-digit-or-dot remainder; the two captured
groups are the first run and the remainder.  (The leading run is forced
to end at the first space and the middle run to absorb the whole space
block, so the greedy regex admits no other decomposition.) -/
def poseNameMatch (s : List Char) : Option (List Char × List Char) :=
  let b := s.takeWhile (fun c => ! isPySpace c)
  let r := s.dropWhile (fun c => ! isPySpace c)
  let w := r.takeWhile isPySpace
  let t := r.dropWhile isPySpace
  if b ≠ [] ∧ w ≠ [] ∧ t ≠ [] ∧ t.all isDigitOrDot then some (b, t)
  else none

instance {e a : Type} [DecidableEq e] [DecidableEq a] :
    DecidableEq (Except e a) := fun x y =>
  match x, y with
  | .ok u, .ok v => decidable_of_iff (u = v) (by simp)
  | .error u, .error v => decidable_of_iff (u = v) (by simp)
  | .ok _, .error _ => isFalse (by simp)
  | .error _, .ok _ => isFalse (by simp)

/-- The data held by a constructed `Pose`. -/
structure PoseData where
  basename : List Char
  time : ℚ
deriving DecidableEq, Repr

/-- Source: `Pose.__init__` (io_export_vgl.py lines 124-135,
io_export_vgl_2_90.py lines 138-149).  If the regex matches, the
timestamp group is converted with `float()` — which raises an uncaught
ValueError when the digits-and-dots token is not a valid float literal —
otherwise the whole (unstripped) name becomes the basename with
timestamp 0.0 and a warning is logged. -/
def poseInit (name : List Char) : Except PyError (PoseData × List LogEntry) :=
  match poseNameMatch (pyStrip name) with
  | some (b, t) =>
    match pyFloatOfToken t with
    | some tv => Except.ok (⟨b, tv⟩, [])
    | none => Except.error PyError.valueError
  | none =>
    Except.ok (⟨name, 0⟩, [LogEntry.cannotDeduceTimestamp name])

/-- C8: the spec's non-fatal fallback holds for names the regex rejects
(`walkcycle` falls back to the whole name with timestamp 0 and a
diagnostic, and `walk 2.5` parses normally), but a name whose trailing
digits-and-dots token is not a valid float literal — e.g.
`walk 1.2.3` — makes `float()` raise an uncaught ValueError, so
construction fails instead of falling back: the code contradicts the
documented non-fatal `AmbiguousPoseName` handling. -/
theorem claim_C8_pose_fallback :
    poseInit "walk 1.2.3".toList = Except.error PyError.valueError ∧
    poseInit "walkcycle".toList = Except.ok
      (⟨"walkcycle".toList, 0⟩,
       [LogEntry.cannotDeduceTimestamp "walkcycle".toList]) ∧
    poseInit "walk 2.5".toList = Except.ok (⟨"walk".toList, 5/2⟩, []) := by
  refine ⟨by decide, by decide, ?_⟩
  have hm : poseNameMatch (pyStrip "walk 2.5".toList) =
      some ("walk".toList, "2.5".toList) := by decide
  have hguard : "2.5".toList.all isDigitOrDot = true ∧
      "2.5".toList.countP (fun c => c = '.') ≤ 1 ∧
      "2.5".toList.any Char.isDigit = true := by decide
  have hint : digitsToNat ("2.5".toList.takeWhile (fun c => c ≠ '.')) = 2 := by
    decide
  have hfrac :
      digitsToNat (("2.5".toList.dropWhile (fun c => c ≠ '.')).drop 1) = 5 := by
    decide
  have hlen :
      (("2.5".toList.dropWhile (fun c => c ≠ '.')).drop 1).length = 1 := by
    decide
  have hf : pyFloatOfToken "2.5".toList = some (5/2) := by
    rw [pyFloatOfToken, if_pos hguard, hint, hfrac, hlen]
    norm_num
  unfold poseInit
  rw [hm]
  simp only [hf]

/-- One bone's sampled state at a frame: the exportable head position
(the vector produced by `toExportBonePosition`) and the exportable
quaternion (produced by `toExportBoneQuaternion`), in armature order.
The matrix algebra behind the two functions reads external Blender scene
state and is modelled as this per-frame oracle. -/
structure BoneSample where
  hd : ℚ × ℚ × ℚ
  qq : ℚ × ℚ × ℚ × ℚ

/-- Source: the per-bone element of the sampling loop (both files) —
`[px, py, pz, qw, qx, qy, qz]`: positions scaled by the armature scale
and the shared export scale through `toExportS16`, quaternion components
through `toExport4F12`. -/
def boneElem (ascale : ℚ × ℚ × ℚ) (escale : ℚ) (s : BoneSample) :
    List ℤ :=
  [toExportS16 (s.hd.1 * ascale.1 * escale),
   toExportS16 (s.hd.2.1 * ascale.2.1 * escale),
   toExportS16 (s.hd.2.2 * ascale.2.2 * escale),
   toExport4F12 s.qq.1, toExport4F12 s.qq.2.1,
   toExport4F12 s.qq.2.2.1, toExport4F12 s.qq.2.2.2]

/-- Source: `bpy.ops.screen.keyframe_jump(next=False)` — move the frame
cursor to the greatest keyframe strictly before it; CANCELLED (none)
when no such keyframe exists. -/
def keyframeJumpPrev (keys : List ℤ) (c : ℤ) : Option ℤ :=
  (keys.filter (fun k => k < c)).max?

/-- Source: `bpy.ops.screen.keyframe_jump(next=True)` — move the frame
cursor to the least keyframe strictly after it; CANCELLED (none) when no
such keyframe exists. -/
def keyframeJumpNext (keys : List ℤ) (c : ℤ) : Option ℤ :=
  (keys.filter (fun k => c < k)).min?

/-- Source: the first `while True` loop of `animToString`
(io_export_vgl_2_90.py lines 445-448) — jump backwards until the jump
fails.  Fuel bounds the loop; `keys.length` steps suffice because every
successful jump lands on a strictly smaller keyframe, and once no jump
is possible returning the cursor matches the failed-jump exit. -/
def seekFirstKeyframe (keys : List ℤ) : ℕ → ℤ → ℤ
  | 0, c => c
  | fuel + 1, c =>
    match keyframeJumpPrev keys c with
    | none => c
    | some k => seekFirstKeyframe keys fuel k

/-- Source: the second `while True` (do-while) loop of `animToString`
(io_export_vgl_2_90.py lines 450-478) — emit the frame at the cursor
(one timestamp record `[toExport8F8(frame / 24)]` followed by one record
per bone in armature order), then advance to the next keyframe, stopping
when the jump fails.  The loop body always runs at least once.  Fuel
bounds the loop as in seeking. -/
def sampleFrames (ascale : ℚ × ℚ × ℚ) (escale : ℚ)
    (sample : ℤ → List BoneSample) (keys : List ℤ) :
    ℕ → ℤ → List (List ℤ)
  | fuel, c =>
    match fuel, keyframeJumpNext keys c with
    | _, none =>
      [toExport8F8 ((c : ℚ) / 24)] :: (sample c).map (boneElem ascale escale)
    | 0, some _ =>
      [toExport8F8 ((c : ℚ) / 24)] :: (sample c).map (boneElem ascale escale)
    | f + 1, some k =>
      ([toExport8F8 ((c : ℚ) / 24)] ::
        (sample c).map (boneElem ascale escale)) ++
        sampleFrames ascale escale sample keys f k

/-- Source: `animToString` (io_export_vgl_2_90.py lines 439-488) — seek
to the first keyframe, then sample frames forward; the declared
`ANIM_DATA_SIZE` is the running total of emitted record lengths and the
data array holds the records.  Action assignment and UI redraw calls are
provider effects with no bearing on the emitted data. -/
def animToString290 (keys : List ℤ) (c0 : ℤ)
    (sample : ℤ → List BoneSample) (ascale : ℚ × ℚ × ℚ) (escale : ℚ) :
    ℕ × List (List ℤ) :=
  let recs := sampleFrames ascale escale sample keys keys.length
    (seekFirstKeyframe keys keys.length c0)
  ((recs.map List.length).sum, recs)

/-- Source: `animToString` (io_export_vgl.py lines 367-394) — the legacy
exporter iterates an explicit pose list (`for ii in anim:`), emitting the
pose timestamp record then one record per bone; an empty pose list
yields no records. -/
def animToStringLegacy (poses : List (ℚ × List BoneSample))
    (ascale : ℚ × ℚ × ℚ) (escale : ℚ) : List (List ℤ) :=
  poses.flatMap (fun p =>
    [toExport8F8 p.1] :: p.2.map (boneElem ascale escale))

/-- C4 counterexample: sampling an action with ZERO keyframes over a
one-bone armature still emits one full frame (the do-while loop body runs
before the first jump attempt), so the declared size is 8, not 0, and the
data array is not empty. -/
theorem claim_C4_counterexample :
    animToString290 [] 0 (fun _ => [⟨(0, 0, 0), (1, 0, 0, 0)⟩]) (1, 1, 1) 1 =
      (8, [[0], [0, 0, 0, 4096, 0, 0, 0]]) ∧ (8 : ℕ) ≠ 0 := by
  refine ⟨?_, by decide⟩
  norm_num [animToString290, sampleFrames, seekFirstKeyframe,
    keyframeJumpNext, keyframeJumpPrev, boneElem, toExport8F8,
    toExport4F12, toExportS16, pyRound]

/-- C4 (amended): for every action with zero keyframes, the 2.90
Animation Sampler still emits exactly one frame record sampled at the
initial frame cursor — declared size `1 + 7 * boneCount`, never 0 — and
raises no error; only the legacy per-pose exporter emits an empty data
block for an empty pose list. -/
theorem claim_C4_zero_keyframes (c0 : ℤ) (sample : ℤ → List BoneSample)
    (ascale : ℚ × ℚ × ℚ) (escale : ℚ) :
    animToString290 [] c0 sample ascale escale =
      (1 + 7 * (sample c0).length,
       [toExport8F8 ((c0 : ℚ) / 24)] ::
         (sample c0).map (boneElem ascale escale)) ∧
    (animToString290 [] c0 sample ascale escale).1 ≠ 0 ∧
    animToStringLegacy [] ascale escale = [] := by
  have hlen : ∀ l : List BoneSample,
      ((l.map (boneElem ascale escale)).map List.length).sum = 7 * l.length := by
    intro l
    induction l with
    | nil => rfl
    | cons s rest ih =>
      simp only [List.map_cons, List.sum_cons, ih, List.length_cons, boneElem,
        List.length]
      omega
  have heq : animToString290 [] c0 sample ascale escale =
      (1 + 7 * (sample c0).length,
       [toExport8F8 ((c0 : ℚ) / 24)] ::
         (sample c0).map (boneElem ascale escale)) := by
    simp only [animToString290, List.length_nil, seekFirstKeyframe,
      sampleFrames, keyframeJumpNext, List.filter_nil, List.min?_nil,
      List.map_cons, List.sum_cons, List.length_singleton, hlen (sample c0)]
  exact ⟨heq, by rw [heq]; omega, rfl⟩
